import Mathlib

/-!
Verification of the Mikup realtime multi-stem DSP core
(src/ui/src-tauri/src/lib.rs and src/ui/src-tauri/src/dsp/).

The Rust code is shallowly embedded over exact rationals: f32 samples and
gains become rationals, vectors become lists, and the relevant stateful
loops become explicit state-passing functions.  Definitions mirror the
source line by line; definitions that follow the wording of the
specification instead of the source carry a doc comment saying so.
-/

namespace Mikup

/-- Per-stem user control flags (dsp/mod.rs, struct StemState). -/
structure StemState where
  is_solo : Bool
  is_muted : Bool
deriving DecidableEq

/-- Snapshot of all five stem flags (dsp/mod.rs, struct AudioFrameStemFlags). -/
structure AudioFrameStemFlags where
  dx : StemState
  music : StemState
  foley : StemState
  sfx : StemState
  ambience : StemState
deriving DecidableEq

/-- dsp/mod.rs, AudioFrameStemFlags::any_solo (disjunction in source order
dx, music, sfx, foley, ambience). -/
def AudioFrameStemFlags.any_solo (f : AudioFrameStemFlags) : Bool :=
  f.dx.is_solo || f.music.is_solo || f.sfx.is_solo || f.foley.is_solo || f.ambience.is_solo

/-- Currently applied per-stem gains (dsp/mod.rs, struct StemRuntimeGains). -/
structure StemRuntimeGains where
  dx : ℚ
  music : ℚ
  foley : ℚ
  sfx : ℚ
  ambience : ℚ
deriving DecidableEq

/-- Frame-target per-stem gains (dsp/mod.rs, struct StemTargetGains). -/
structure StemTargetGains where
  dx : ℚ
  music : ℚ
  foley : ℚ
  sfx : ℚ
  ambience : ℚ
deriving DecidableEq

/-- The closure gain_for inside StemTargetGains::from_flags (dsp/mod.rs
lines 201-213), lifted to a top-level function. -/
def gain_for (any_solo : Bool) (stem : StemState) : ℚ :=
  if any_solo then
    if stem.is_solo then 1 else 0
  else if stem.is_muted && !stem.is_solo then 0
  else 1

/-- dsp/mod.rs, StemTargetGains::from_flags (lines 199-222). -/
def StemTargetGains.from_flags (flags : AudioFrameStemFlags) : StemTargetGains :=
  let any_solo := flags.any_solo
  { dx := gain_for any_solo flags.dx
    music := gain_for any_solo flags.music
    foley := gain_for any_solo flags.foley
    sfx := gain_for any_solo flags.sfx
    ambience := gain_for any_solo flags.ambience }

/-- f32::signum restricted to the values reachable here: 1 for a
nonnegative delta (Rust returns 1.0 for +0.0) and -1 for a negative one. -/
def signum_f32 (x : ℚ) : ℚ :=
  if 0 ≤ x then 1 else -1

/-- dsp/mod.rs, apply_gain_step (lines 923-931).  Returns the gain-applied
sample together with the updated runtime gain. -/
def apply_gain_step (sample current_gain target_gain step : ℚ) : ℚ × ℚ :=
  let delta := target_gain - current_gain
  let g :=
    if |delta| ≤ step then target_gain
    else current_gain + step * signum_f32 delta
  (sample * g, g)

/-- The per-sample loop body of apply_gain_ramp (dsp/mod.rs lines 849-857):
the same delta-clamp update as apply_gain_step, applied along the buffer. -/
def gain_ramp_loop : List ℚ → ℚ → ℚ → ℚ → List ℚ × ℚ
  | [], g, _t, _s => ([], g)
  | x :: xs, g, t, s =>
    let delta := t - g
    let g1 := if |delta| ≤ s then t else g + s * signum_f32 delta
    let rest := gain_ramp_loop xs g1 t s
    (x * g1 :: rest.1, rest.2)

/-- dsp/mod.rs, apply_gain_ramp (lines 843-858): an empty buffer snaps the
runtime gain straight to the target, otherwise the per-sample ramp runs. -/
def apply_gain_ramp (buffer : List ℚ) (current_gain target_gain step : ℚ) : List ℚ × ℚ :=
  if buffer.isEmpty then ([], target_gain)
  else gain_ramp_loop buffer current_gain target_gain step

/-- What the specification says the target gain of a stem is: with a solo
active anywhere, solo stems get 1 and all others 0 (solo overrides mute);
with no solo, muted stems get 0 and the rest 1.  Spec-side definition used
to compare StemTargetGains.from_flags against the claim. -/
def spec_target_gain (any_solo : Bool) (stem : StemState) : ℚ :=
  if any_solo then
    if stem.is_solo then 1 else 0
  else if stem.is_muted then 0
  else 1

/-- Claim C4: whenever at least one stem is solo, every non-solo stem gets
target gain 0 and every solo stem gets 1 (even if also muted); with no solo
stem, muted stems get 0 and all other stems get 1.  The computed
StemTargetGains.from_flags agrees with this rule on every stem. -/
theorem target_gains_solo_overrides_mute (flags : AudioFrameStemFlags) :
    StemTargetGains.from_flags flags =
      { dx := spec_target_gain flags.any_solo flags.dx
        music := spec_target_gain flags.any_solo flags.music
        foley := spec_target_gain flags.any_solo flags.foley
        sfx := spec_target_gain flags.any_solo flags.sfx
        ambience := spec_target_gain flags.any_solo flags.ambience } := by
  rcases flags with ⟨⟨a1, b1⟩, ⟨a2, b2⟩, ⟨a3, b3⟩, ⟨a4, b4⟩, ⟨a5, b5⟩⟩
  revert a1 b1 a2 b2 a3 b3 a4 b4 a5 b5
  decide

/-- Claim C6: one gain-ramp step moves the runtime gain toward the target
by step, never overshooting: the distance to the target shrinks to
max 0 (distance - step), and snaps exactly when already within step. -/
theorem gain_step_contracts (x g t s : ℚ) (hs : 0 < s) :
    |(apply_gain_step x g t s).2 - t| ≤ max 0 (|g - t| - s) ∧
      (|g - t| ≤ s → (apply_gain_step x g t s).2 = t) := by
  have habs : |t - g| = |g - t| := abs_sub_comm t g
  constructor
  · simp only [apply_gain_step]
    by_cases h : |t - g| ≤ s
    · simp only [h, if_true, sub_self, abs_zero]
      exact le_max_left _ _
    · simp only [h, if_false]
      push_neg at h
      rw [habs] at h
      have hmax : max 0 (|g - t| - s) = |g - t| - s := by
        apply max_eq_right
        linarith
      rw [hmax]
      rcases le_or_lt 0 (t - g) with hd | hd
      · have hsig : signum_f32 (t - g) = 1 := by simp [signum_f32, hd]
        rw [hsig]
        have hg : |g - t| = t - g := by
          rw [abs_sub_comm]; exact abs_of_nonneg hd
        rw [hg]
        have : g + s * 1 - t = -(t - g - s) := by ring
        rw [this, abs_neg, abs_of_nonneg (by rw [hg] at h; linarith)]
      · have hsig : signum_f32 (t - g) = -1 := by
          simp [signum_f32, not_le.mpr hd]
        rw [hsig]
        have hg : |g - t| = g - t := abs_of_nonneg (by linarith)
        rw [hg]
        have : g + s * -1 - t = g - t - s := by ring
        rw [this, abs_of_nonneg (by rw [hg] at h; linarith)]
  · intro h
    simp only [apply_gain_step]
    rw [habs.symm] at h
    simp [h]

/-- Witness for C6 at current 0, target 1, step 1/4. -/
theorem gain_step_contracts_witness :
    |(apply_gain_step 2 0 1 (1/4)).2 - 1| ≤ max 0 (|(0:ℚ) - 1| - 1/4) ∧
      (|(0:ℚ) - 1| ≤ 1/4 → (apply_gain_step 2 0 1 (1/4)).2 = 1) :=
  gain_step_contracts 2 0 1 (1/4) (by norm_num)

/-- Claim C9: applying the gain ramp to an empty sample buffer sets the
runtime gain immediately to the target, bypassing the per-sample ramp. -/
theorem gain_ramp_empty_snaps (g t s : ℚ) :
    apply_gain_ramp [] g t s = ([], t) := by
  simp [apply_gain_ramp]

/-! ### The synchronized frame and its assembly (dsp/mod.rs) -/

/-- dsp/mod.rs, struct AudioFrame (lines 233-245).  The static_loudness
Option field carries no data relevant to the claims and is omitted.
Note there is no effects_raw field: the stems are dx, music, foley, sfx
and ambience, and background_raw is the summed background mix. -/
structure AudioFrame where
  sample_rate : ℕ
  dialogue_raw : List ℚ
  background_raw : List ℚ
  dx_raw : List ℚ
  music_raw : List ℚ
  foley_raw : List ℚ
  sfx_raw : List ℚ
  ambience_raw : List ℚ
  stem_flags : AudioFrameStemFlags
deriving DecidableEq

/-- Loop state of sum_background_stems: the four (mutated in place)
background stem buffers, the mixed output buffer, and the runtime gains. -/
structure BgSumState where
  music : List ℚ
  foley : List ℚ
  sfx : List ℚ
  ambience : List ℚ
  mixed : List ℚ
  gains : StemRuntimeGains
deriving DecidableEq

/-- One iteration of the indexed loop in sum_background_stems (dsp/mod.rs
lines 876-918): per stem, read index i (0.0 when out of range, matching
get(i).copied().unwrap_or(0.0)), advance that stem gain one step, write the
gain-applied sample back when the index is in range (matching get_mut), and
store the four-stem sum into the mixed buffer. -/
def bg_sum_step (target : StemTargetGains) (step : ℚ) (st : BgSumState) (i : ℕ) : BgSumState :=
  let m := apply_gain_step (st.music.getD i 0) st.gains.music target.music step
  let f := apply_gain_step (st.foley.getD i 0) st.gains.foley target.foley step
  let x := apply_gain_step (st.sfx.getD i 0) st.gains.sfx target.sfx step
  let a := apply_gain_step (st.ambience.getD i 0) st.gains.ambience target.ambience step
  { music := st.music.set i m.1
    foley := st.foley.set i f.1
    sfx := st.sfx.set i x.1
    ambience := st.ambience.set i a.1
    mixed := st.mixed.set i (m.1 + f.1 + x.1 + a.1)
    gains := { st.gains with
      music := m.2, foley := f.2, sfx := x.2, ambience := a.2 } }

/-- dsp/mod.rs, sum_background_stems (lines 860-921): len is the maximum of
the four buffer lengths, mixed starts as len zeros, and the loop runs over
indices 0..len. -/
def sum_background_stems (music foley sfx ambience : List ℚ)
    (gains : StemRuntimeGains) (target : StemTargetGains) (step : ℚ) : BgSumState :=
  let len := max (max (max music.length foley.length) sfx.length) ambience.length
  (List.range len).foldl (bg_sum_step target step)
    { music := music, foley := foley, sfx := sfx, ambience := ambience
      mixed := List.replicate len 0, gains := gains }

/-- dsp/mod.rs, MikupAudioDecoder::process_frame (lines 793-832).  The
stem-flag snapshot read under the lock is passed in as a parameter (a
poisoned lock yields default flags in the source; either way the value is
just some AudioFrameStemFlags).  Returns the assembled frame together with
the updated runtime gains. -/
def process_frame (sample_rate : ℕ) (gain_step_per_sample : ℚ)
    (stem_flags : AudioFrameStemFlags) (gains : StemRuntimeGains)
    (dx music foley sfx ambience : List ℚ) : AudioFrame × StemRuntimeGains :=
  let target := StemTargetGains.from_flags stem_flags
  let ramp := apply_gain_ramp dx gains.dx target.dx gain_step_per_sample
  let bg := sum_background_stems music foley sfx ambience
    { gains with dx := ramp.2 } target gain_step_per_sample
  ({ sample_rate := sample_rate
     dialogue_raw := ramp.1
     background_raw := bg.mixed
     dx_raw := ramp.1
     music_raw := bg.music
     foley_raw := bg.foley
     sfx_raw := bg.sfx
     ambience_raw := bg.ambience
     stem_flags := stem_flags },
   bg.gains)

/-- Vec::resize(new_len, 0.0) on a sample buffer: truncate or zero-pad to
exactly new_len samples. -/
def vec_resize (v : List ℚ) (new_len : ℕ) : List ℚ :=
  v.take new_len ++ List.replicate (new_len - v.length) 0

/-- Post-resampler state of one StemStreamDecoder as seen by read_frame:
the pending-sample FIFO and the eof flag (dsp/mod.rs lines 353-362).
The container and codec are behind fill_until, which performs I/O and is
not modelled; read_frame is embedded from the point after its fill_until
calls return. -/
structure StemQueue where
  pending : List ℚ
  eof : Bool
deriving DecidableEq

/-- dsp/mod.rs, StemStreamDecoder::is_finished (lines 521-523). -/
def StemQueue.is_finished (s : StemQueue) : Bool :=
  s.eof && s.pending.isEmpty

/-- dsp/mod.rs, StemStreamDecoder::pop_frame (lines 516-519): drain up to
frame_size pending samples. -/
def StemQueue.pop_frame (s : StemQueue) (frame_size : ℕ) : List ℚ × StemQueue :=
  (s.pending.take frame_size, { s with pending := s.pending.drop frame_size })

/-- The five per-stem decoder queues owned by MikupAudioDecoder. -/
structure DecoderQueues where
  dx : StemQueue
  music : StemQueue
  foley : StemQueue
  sfx : StemQueue
  ambience : StemQueue
deriving DecidableEq

def DecoderQueues.all_finished (q : DecoderQueues) : Bool :=
  q.dx.is_finished && q.music.is_finished && q.foley.is_finished &&
    q.sfx.is_finished && q.ambience.is_finished

/-- The tail of read_frame (dsp/mod.rs lines 730-754): take the maximum
popped length, record an alignment mismatch when a nonempty frame has a
short stem, zero-pad every stem to the maximum, and hand the buffers to
process_frame.  Returns the frame, the updated gains and whether the sticky
alignment_mismatch flag is set by this call. -/
def assemble_frame (sample_rate : ℕ) (gain_step : ℚ)
    (stem_flags : AudioFrameStemFlags) (gains : StemRuntimeGains)
    (dx music foley sfx ambience : List ℚ) :
    AudioFrame × StemRuntimeGains × Bool :=
  let max_len := max (max (max (max dx.length music.length) foley.length)
    sfx.length) ambience.length
  let mismatch :=
    if 0 < max_len ∧ (dx.length < max_len ∨ music.length < max_len ∨
        foley.length < max_len ∨ sfx.length < max_len ∨ ambience.length < max_len)
    then true else false
  let pf := process_frame sample_rate gain_step stem_flags gains
    (vec_resize dx max_len) (vec_resize music max_len) (vec_resize foley max_len)
    (vec_resize sfx max_len) (vec_resize ambience max_len)
  (pf.1, pf.2, mismatch)

/-- dsp/mod.rs, MikupAudioDecoder::read_frame (lines 685-755), embedded
from the point after the five fill_until calls: none when all stems are
fully consumed; when every pop is empty but some stem is still streaming,
substitute frame_size silent samples per stem to keep alignment; otherwise
assemble the popped buffers. -/
def read_frame (frame_size sample_rate : ℕ) (gain_step : ℚ)
    (stem_flags : AudioFrameStemFlags) (gains : StemRuntimeGains)
    (q : DecoderQueues) :
    Option (AudioFrame × StemRuntimeGains × Bool × DecoderQueues) :=
  if q.all_finished then none
  else
    let pdx := q.dx.pop_frame frame_size
    let pmu := q.music.pop_frame frame_size
    let pfo := q.foley.pop_frame frame_size
    let psf := q.sfx.pop_frame frame_size
    let pam := q.ambience.pop_frame frame_size
    let q1 : DecoderQueues := ⟨pdx.2, pmu.2, pfo.2, psf.2, pam.2⟩
    if pdx.1.isEmpty && pmu.1.isEmpty && pfo.1.isEmpty && psf.1.isEmpty &&
        pam.1.isEmpty then
      if q1.all_finished then none
      else
        let silent : List ℚ := List.replicate frame_size 0
        let r := assemble_frame sample_rate gain_step stem_flags gains
          silent silent silent silent silent
        some (r.1, r.2.1, r.2.2, q1)
    else
      let r := assemble_frame sample_rate gain_step stem_flags gains
        pdx.1 pmu.1 pfo.1 psf.1 pam.1
      some (r.1, r.2.1, r.2.2, q1)

/-- dsp/mod.rs, MikupAudioDecoder::drain_tail (lines 757-777): drain every
pending queue, zero-pad to the maximum length, process.  The alignment flag
is not touched here. -/
def drain_tail (sample_rate : ℕ) (gain_step : ℚ)
    (stem_flags : AudioFrameStemFlags) (gains : StemRuntimeGains)
    (q : DecoderQueues) : AudioFrame × StemRuntimeGains :=
  let dx := q.dx.pending
  let music := q.music.pending
  let foley := q.foley.pending
  let sfx := q.sfx.pending
  let ambience := q.ambience.pending
  let max_len := max (max (max (max dx.length music.length) foley.length)
    sfx.length) ambience.length
  process_frame sample_rate gain_step stem_flags gains
    (vec_resize dx max_len) (vec_resize music max_len) (vec_resize foley max_len)
    (vec_resize sfx max_len) (vec_resize ambience max_len)

/-- All seven sample buffers of a frame share one length: the dialogue
buffer, the composite background, and each per-stem buffer. -/
def frame_lengths_aligned (f : AudioFrame) : Prop :=
  f.dialogue_raw.length = f.background_raw.length ∧
    f.dx_raw.length = f.background_raw.length ∧
    f.music_raw.length = f.background_raw.length ∧
    f.foley_raw.length = f.background_raw.length ∧
    f.sfx_raw.length = f.background_raw.length ∧
    f.ambience_raw.length = f.background_raw.length

lemma gain_ramp_loop_length (l : List ℚ) :
    ∀ g t s, (gain_ramp_loop l g t s).1.length = l.length := by
  induction l with
  | nil => intro g t s; rfl
  | cons x xs ih =>
    intro g t s
    simp only [gain_ramp_loop, List.length_cons, ih]

lemma apply_gain_ramp_length (l : List ℚ) (g t s : ℚ) :
    (apply_gain_ramp l g t s).1.length = l.length := by
  rcases l with _ | ⟨x, xs⟩
  · rfl
  · simp [apply_gain_ramp, gain_ramp_loop_length]

lemma foldl_invariant {σ α : Type} (f : σ → α → σ) (p : σ → Prop)
    (hstep : ∀ s a, p s → p (f s a)) :
    ∀ (l : List α) (s : σ), p s → p (l.foldl f s) := by
  intro l
  induction l with
  | nil => intro s hs; exact hs
  | cons a l ih => intro s hs; exact ih _ (hstep s a hs)

lemma sum_background_stems_lengths (music foley sfx ambience : List ℚ)
    (gains : StemRuntimeGains) (target : StemTargetGains) (step : ℚ) :
    (sum_background_stems music foley sfx ambience gains target step).music.length
        = music.length ∧
      (sum_background_stems music foley sfx ambience gains target step).foley.length
        = foley.length ∧
      (sum_background_stems music foley sfx ambience gains target step).sfx.length
        = sfx.length ∧
      (sum_background_stems music foley sfx ambience gains target step).ambience.length
        = ambience.length ∧
      (sum_background_stems music foley sfx ambience gains target step).mixed.length
        = max (max (max music.length foley.length) sfx.length) ambience.length := by
  exact foldl_invariant (bg_sum_step target step)
    (fun st => st.music.length = music.length ∧ st.foley.length = foley.length ∧
      st.sfx.length = sfx.length ∧ st.ambience.length = ambience.length ∧
      st.mixed.length =
        max (max (max music.length foley.length) sfx.length) ambience.length)
    (by
      intro st a hst
      simp only [bg_sum_step, List.length_set]
      exact hst)
    (List.range (max (max (max music.length foley.length) sfx.length) ambience.length))
    { music := music, foley := foley, sfx := sfx, ambience := ambience
      mixed := List.replicate _ 0, gains := gains }
    (by simp)

lemma process_frame_dialogue (sample_rate : ℕ) (gain_step : ℚ)
    (stem_flags : AudioFrameStemFlags) (gains : StemRuntimeGains)
    (dx music foley sfx ambience : List ℚ) :
    (process_frame sample_rate gain_step stem_flags gains
        dx music foley sfx ambience).1.dialogue_raw =
      (apply_gain_ramp dx gains.dx
        (StemTargetGains.from_flags stem_flags).dx gain_step).1 := rfl

lemma process_frame_bg_fields (sample_rate : ℕ) (gain_step : ℚ)
    (stem_flags : AudioFrameStemFlags) (gains : StemRuntimeGains)
    (dx music foley sfx ambience : List ℚ) :
    let target := StemTargetGains.from_flags stem_flags
    let bg := sum_background_stems music foley sfx ambience
      { gains with dx := (apply_gain_ramp dx gains.dx target.dx gain_step).2 }
      target gain_step
    let fr := (process_frame sample_rate gain_step stem_flags gains
      dx music foley sfx ambience).1
    fr.background_raw = bg.mixed ∧ fr.dx_raw = fr.dialogue_raw ∧
      fr.music_raw = bg.music ∧ fr.foley_raw = bg.foley ∧
      fr.sfx_raw = bg.sfx ∧ fr.ambience_raw = bg.ambience :=
  ⟨rfl, rfl, rfl, rfl, rfl, rfl⟩

lemma process_frame_aligned (sample_rate : ℕ) (gain_step : ℚ)
    (stem_flags : AudioFrameStemFlags) (gains : StemRuntimeGains)
    (dx music foley sfx ambience : List ℚ)
    (hm : music.length = dx.length) (hf : foley.length = dx.length)
    (hs : sfx.length = dx.length) (ha : ambience.length = dx.length) :
    frame_lengths_aligned
      (process_frame sample_rate gain_step stem_flags gains
        dx music foley sfx ambience).1 := by
  obtain ⟨h1, h2, h3, h4, h5⟩ := sum_background_stems_lengths music foley sfx ambience
    { gains with
      dx := (apply_gain_ramp dx gains.dx
        (StemTargetGains.from_flags stem_flags).dx gain_step).2 }
    (StemTargetGains.from_flags stem_flags) gain_step
  obtain ⟨b1, b2, b3, b4, b5, b6⟩ := process_frame_bg_fields sample_rate gain_step
    stem_flags gains dx music foley sfx ambience
  have hd : (process_frame sample_rate gain_step stem_flags gains
      dx music foley sfx ambience).1.dialogue_raw.length = dx.length := by
    rw [process_frame_dialogue, apply_gain_ramp_length]
  have hmax : max (max (max music.length foley.length) sfx.length) ambience.length
      = dx.length := by
    rw [hm, hf, hs, ha, max_self, max_self, max_self]
  have hbgl : (process_frame sample_rate gain_step stem_flags gains
      dx music foley sfx ambience).1.background_raw.length = dx.length := by
    rw [b1, h5, hmax]
  refine ⟨?_, ?_, ?_, ?_, ?_, ?_⟩
  · rw [hd, hbgl]
  · rw [b2, hd, hbgl]
  · rw [b3, h1, hm, hbgl]
  · rw [b4, h2, hf, hbgl]
  · rw [b5, h3, hs, hbgl]
  · rw [b6, h4, ha, hbgl]

lemma vec_resize_length (v : List ℚ) (n : ℕ) :
    (vec_resize v n).length = n := by
  simp only [vec_resize, List.length_append, List.length_take,
    List.length_replicate]
  omega

lemma assemble_frame_eq (sample_rate : ℕ) (gain_step : ℚ)
    (stem_flags : AudioFrameStemFlags) (gains : StemRuntimeGains)
    (dx music foley sfx ambience : List ℚ) :
    (assemble_frame sample_rate gain_step stem_flags gains
        dx music foley sfx ambience).1 =
      (process_frame sample_rate gain_step stem_flags gains
        (vec_resize dx (max (max (max (max dx.length music.length) foley.length)
          sfx.length) ambience.length))
        (vec_resize music (max (max (max (max dx.length music.length) foley.length)
          sfx.length) ambience.length))
        (vec_resize foley (max (max (max (max dx.length music.length) foley.length)
          sfx.length) ambience.length))
        (vec_resize sfx (max (max (max (max dx.length music.length) foley.length)
          sfx.length) ambience.length))
        (vec_resize ambience (max (max (max (max dx.length music.length) foley.length)
          sfx.length) ambience.length))).1 := rfl

lemma assemble_frame_aligned (sample_rate : ℕ) (gain_step : ℚ)
    (stem_flags : AudioFrameStemFlags) (gains : StemRuntimeGains)
    (dx music foley sfx ambience : List ℚ) :
    frame_lengths_aligned
      (assemble_frame sample_rate gain_step stem_flags gains
        dx music foley sfx ambience).1 := by
  rw [assemble_frame_eq]
  exact process_frame_aligned _ _ _ _ _ _ _ _ _
    (by rw [vec_resize_length, vec_resize_length])
    (by rw [vec_resize_length, vec_resize_length])
    (by rw [vec_resize_length, vec_resize_length])
    (by rw [vec_resize_length, vec_resize_length])

lemma drain_tail_eq (sample_rate : ℕ) (gain_step : ℚ)
    (stem_flags : AudioFrameStemFlags) (gains : StemRuntimeGains)
    (q : DecoderQueues) :
    drain_tail sample_rate gain_step stem_flags gains q =
      process_frame sample_rate gain_step stem_flags gains
        (vec_resize q.dx.pending (max (max (max (max q.dx.pending.length
          q.music.pending.length) q.foley.pending.length)
          q.sfx.pending.length) q.ambience.pending.length))
        (vec_resize q.music.pending (max (max (max (max q.dx.pending.length
          q.music.pending.length) q.foley.pending.length)
          q.sfx.pending.length) q.ambience.pending.length))
        (vec_resize q.foley.pending (max (max (max (max q.dx.pending.length
          q.music.pending.length) q.foley.pending.length)
          q.sfx.pending.length) q.ambience.pending.length))
        (vec_resize q.sfx.pending (max (max (max (max q.dx.pending.length
          q.music.pending.length) q.foley.pending.length)
          q.sfx.pending.length) q.ambience.pending.length))
        (vec_resize q.ambience.pending (max (max (max (max q.dx.pending.length
          q.music.pending.length) q.foley.pending.length)
          q.sfx.pending.length) q.ambience.pending.length)) := rfl

/-- Claim C5: every frame returned by read_frame, and every drain_tail
frame, has equal buffer lengths across the dialogue buffer, the composite
background buffer and each per-stem buffer (all stems zero-padded to the
maximum popped length). -/
theorem synced_frame_lengths_aligned (frame_size sample_rate : ℕ)
    (gain_step : ℚ) (stem_flags : AudioFrameStemFlags)
    (gains : StemRuntimeGains) (q : DecoderQueues)
    (out : AudioFrame × StemRuntimeGains × Bool × DecoderQueues) :
    (read_frame frame_size sample_rate gain_step stem_flags gains q =
        some out → frame_lengths_aligned out.1) ∧
      frame_lengths_aligned
        (drain_tail sample_rate gain_step stem_flags gains q).1 := by
  constructor
  · intro h
    simp only [read_frame] at h
    split_ifs at h
    · rw [Option.some_inj] at h
      rw [← h]
      exact assemble_frame_aligned sample_rate gain_step stem_flags gains
        (List.replicate frame_size 0) (List.replicate frame_size 0)
        (List.replicate frame_size 0) (List.replicate frame_size 0)
        (List.replicate frame_size 0)
    · rw [Option.some_inj] at h
      rw [← h]
      exact assemble_frame_aligned sample_rate gain_step stem_flags gains
        (q.dx.pop_frame frame_size).1 (q.music.pop_frame frame_size).1
        (q.foley.pop_frame frame_size).1 (q.sfx.pop_frame frame_size).1
        (q.ambience.pop_frame frame_size).1
  · rw [drain_tail_eq]
    exact process_frame_aligned _ _ _ _ _ _ _ _ _
      (by rw [vec_resize_length, vec_resize_length])
      (by rw [vec_resize_length, vec_resize_length])
      (by rw [vec_resize_length, vec_resize_length])
      (by rw [vec_resize_length, vec_resize_length])

/-- All-neutral stem flags: nothing solo, nothing muted. -/
def neutral_flags : AudioFrameStemFlags :=
  ⟨⟨false, false⟩, ⟨false, false⟩, ⟨false, false⟩, ⟨false, false⟩, ⟨false, false⟩⟩

/-- Unity runtime gains for all five stems. -/
def unity_gains : StemRuntimeGains := ⟨1, 1, 1, 1, 1⟩

/-- Decoder queues holding one pending zero sample per stem, at eof. -/
def one_sample_queues : DecoderQueues :=
  ⟨⟨[0], true⟩, ⟨[0], true⟩, ⟨[0], true⟩, ⟨[0], true⟩, ⟨[0], true⟩⟩

/-- The value read_frame returns on one_sample_queues with frame size 1. -/
def one_sample_read_out : AudioFrame × StemRuntimeGains × Bool × DecoderQueues :=
  ({ sample_rate := 1, dialogue_raw := [0], background_raw := [0], dx_raw := [0],
     music_raw := [0], foley_raw := [0], sfx_raw := [0], ambience_raw := [0],
     stem_flags := neutral_flags }, unity_gains, false,
   ⟨⟨[], true⟩, ⟨[], true⟩, ⟨[], true⟩, ⟨[], true⟩, ⟨[], true⟩⟩)

/-- Witness for C5 on a concrete one-sample stream. -/
theorem synced_frame_lengths_aligned_witness :
    frame_lengths_aligned one_sample_read_out.1 :=
  (synced_frame_lengths_aligned 1 1 1 neutral_flags unity_gains one_sample_queues
    one_sample_read_out).1 (by
      norm_num [read_frame, DecoderQueues.all_finished, StemQueue.is_finished,
        StemQueue.pop_frame, assemble_frame, vec_resize, process_frame,
        apply_gain_ramp, gain_ramp_loop, sum_background_stems, bg_sum_step,
        apply_gain_step, signum_f32, StemTargetGains.from_flags, gain_for,
        AudioFrameStemFlags.any_solo, neutral_flags, unity_gains,
        one_sample_queues, one_sample_read_out, List.range_succ])

/-! ### Loudness analyzer meter feeds (dsp/loudness.rs) -/

/-- The buffer LoudnessAnalyzer::process_frame feeds to its dialogue meter
(dsp/loudness.rs line 126): the dialogue_raw field of the frame, which
process_frame fills with the gain-applied dialogue stem. -/
def loudness_feed_dialogue (f : AudioFrame) : List ℚ := f.dialogue_raw

/-- The buffer LoudnessAnalyzer::process_frame feeds to its music meter
(dsp/loudness.rs line 127): the music_raw field of the frame, which
process_frame fills with the gain-applied music stem.  The third feed in
the source (line 128) reads frame.effects_raw, a field that does not exist
on the frame type (dsp/mod.rs AudioFrame carries dx, music, foley, sfx and
ambience stems plus the summed background_raw), so the effects-meter feed
has no embedding; the frame also has no meters for foley, sfx or
ambience. -/
def loudness_feed_music (f : AudioFrame) : List ℚ := f.music_raw

/-- Claim C1: on a concrete frame (all gains at 1, music and foley each
contributing sample 1), the dialogue and music meter feeds are exactly the
gain-applied buffers of their own stems, and the music feed differs from
the summed background mix, which the meters never receive.  The remaining
assertion of the claim fails in the source: the effects meter reads a
nonexistent frame field (see loudness_feed_music). -/
theorem loudness_meters_fed_per_stem :
    loudness_feed_dialogue
        (process_frame 1 1 neutral_flags unity_gains [1] [1] [1] [0] [0]).1 =
      (process_frame 1 1 neutral_flags unity_gains [1] [1] [1] [0] [0]).1.dx_raw ∧
    loudness_feed_music
        (process_frame 1 1 neutral_flags unity_gains [1] [1] [1] [0] [0]).1 = [1] ∧
    (process_frame 1 1 neutral_flags unity_gains [1] [1] [1] [0] [0]).1.background_raw
        = [2] ∧
    loudness_feed_music
        (process_frame 1 1 neutral_flags unity_gains [1] [1] [1] [0] [0]).1 ≠
      (process_frame 1 1 neutral_flags unity_gains [1] [1] [1] [0] [0]).1.background_raw := by
  refine ⟨rfl, ?_, ?_, ?_⟩ <;>
    norm_num [loudness_feed_music, process_frame, apply_gain_ramp,
      gain_ramp_loop, sum_background_stems, bg_sum_step, apply_gain_step,
      signum_f32, StemTargetGains.from_flags, gain_for,
      AudioFrameStemFlags.any_solo, neutral_flags, unity_gains, List.range_succ]

/-! ### Streaming orchestrator event emission (lib.rs, stream_audio_metrics) -/

/-- The per-iteration emit logic of the stream_audio_metrics worker loop
(src/ui/src-tauri/src/lib.rs lines 847-941).  The first argument of the
recursion is the frame_index counter entering the iteration and the second
the number of frames still to be read.  Per iteration the code computes
timestamp_secs from the pre-increment counter, increments frame_index, and
then emits (frame_index, timestamp_secs) unless throttled; the wall-clock
throttle (at least 16 ms since the previous emit) is abstracted by the
emit_ok oracle, and the first frame always emits because last_emit starts
as None. -/
def stream_emit_loop (frame_size sample_rate : ℕ) (emit_ok : ℕ → Bool) :
    ℕ → ℕ → Bool → List (ℕ × ℚ)
  | _i, 0, _he => []
  | i, n + 1, has_emitted =>
    let timestamp : ℚ := (i : ℚ) * frame_size / sample_rate
    let should_emit := if has_emitted then emit_ok i else true
    if should_emit then
      (i + 1, timestamp) ::
        stream_emit_loop frame_size sample_rate emit_ok (i + 1) n true
    else
      stream_emit_loop frame_size sample_rate emit_ok (i + 1) n has_emitted

/-- The (frame_index, timestamp_secs) pairs of all frame events emitted by
a stream of the given number of frames. -/
def stream_emitted_events (frame_size sample_rate frames : ℕ)
    (emit_ok : ℕ → Bool) : List (ℕ × ℚ) :=
  stream_emit_loop frame_size sample_rate emit_ok 0 frames false

lemma stream_emit_loop_cons_of_emit (frame_size sample_rate : ℕ)
    (emit_ok : ℕ → Bool) (n i : ℕ) (he : Bool)
    (h : he = true → emit_ok i = true) :
    stream_emit_loop frame_size sample_rate emit_ok i (n + 1) he =
      (i + 1, (i : ℚ) * frame_size / sample_rate) ::
        stream_emit_loop frame_size sample_rate emit_ok (i + 1) n true := by
  cases he
  · simp [stream_emit_loop]
  · simp [stream_emit_loop, h rfl]

lemma stream_emit_loop_skip (frame_size sample_rate : ℕ)
    (emit_ok : ℕ → Bool) (n i : ℕ) (h : emit_ok i = false) :
    stream_emit_loop frame_size sample_rate emit_ok i (n + 1) true =
      stream_emit_loop frame_size sample_rate emit_ok (i + 1) n true := by
  simp [stream_emit_loop, h]

lemma stream_emit_loop_mem (frame_size sample_rate : ℕ) (emit_ok : ℕ → Bool) :
    ∀ (n i : ℕ) (he : Bool) (e : ℕ × ℚ),
      e ∈ stream_emit_loop frame_size sample_rate emit_ok i n he →
        i < e.1 ∧ e.2 = ((e.1 : ℚ) - 1) * frame_size / sample_rate := by
  intro n
  induction n with
  | zero =>
    intro i he e hmem
    simp [stream_emit_loop] at hmem
  | succ n ih =>
    intro i he e hmem
    have hstep : ∀ htl : e ∈ stream_emit_loop frame_size sample_rate emit_ok
        (i + 1) n true,
        i < e.1 ∧ e.2 = ((e.1 : ℚ) - 1) * frame_size / sample_rate := by
      intro htl
      have := ih (i + 1) true e htl
      exact ⟨Nat.lt_of_succ_lt this.1, this.2⟩
    have hhd : e = (i + 1, (i : ℚ) * frame_size / sample_rate) →
        i < e.1 ∧ e.2 = ((e.1 : ℚ) - 1) * frame_size / sample_rate := by
      intro hE
      subst hE
      refine ⟨Nat.lt_succ_self i, ?_⟩
      push_cast
      ring_nf
    cases he
    · rw [stream_emit_loop_cons_of_emit frame_size sample_rate emit_ok n i false
        (by intro hc; exact absurd hc (by simp))] at hmem
      rcases List.mem_cons.mp hmem with hE | htl
      · exact hhd hE
      · exact hstep htl
    · by_cases hok : emit_ok i = true
      · rw [stream_emit_loop_cons_of_emit frame_size sample_rate emit_ok n i true
          (fun _ => hok)] at hmem
        rcases List.mem_cons.mp hmem with hE | htl
        · exact hhd hE
        · exact hstep htl
      · rw [stream_emit_loop_skip frame_size sample_rate emit_ok n i
          (Bool.eq_false_iff.mpr hok)] at hmem
        exact hstep hmem

lemma stream_emit_loop_chain (frame_size sample_rate : ℕ) (emit_ok : ℕ → Bool) :
    ∀ (n i : ℕ) (he : Bool),
      List.Chain' (fun a b => a.1 < b.1)
        (stream_emit_loop frame_size sample_rate emit_ok i n he) := by
  intro n
  induction n with
  | zero => intro i he; exact List.chain'_nil
  | succ n ih =>
    intro i he
    have hcons : List.Chain' (fun a b => a.1 < b.1)
        ((i + 1, (i : ℚ) * frame_size / sample_rate) ::
          stream_emit_loop frame_size sample_rate emit_ok (i + 1) n true) := by
      refine List.chain'_cons'.mpr ⟨?_, ih (i + 1) true⟩
      intro y hy
      have hmem : y ∈ stream_emit_loop frame_size sample_rate emit_ok (i + 1) n true :=
        List.mem_of_mem_head? hy
      exact (stream_emit_loop_mem frame_size sample_rate emit_ok n (i + 1) true y hmem).1
    cases he
    · rw [stream_emit_loop_cons_of_emit frame_size sample_rate emit_ok n i false
        (by intro hc; exact absurd hc (by simp))]
      exact hcons
    · by_cases hok : emit_ok i = true
      · rw [stream_emit_loop_cons_of_emit frame_size sample_rate emit_ok n i true
          (fun _ => hok)]
        exact hcons
      · rw [stream_emit_loop_skip frame_size sample_rate emit_ok n i
          (Bool.eq_false_iff.mpr hok)]
        exact ih (i + 1) true

/-- Claim C3 (amended): every emitted frame event carries a frame_index of
at least 1, the emitted frame indices are strictly monotonic with the first
event at frame_index 1, and each timestamp_secs equals
(frame_index - 1) · frame_size / sample_rate, so the first emitted
timestamp is 0 and the timestamps are multiples k · frame_size /
sample_rate with k = frame_index - 1 ≥ 0. -/
theorem stream_events_monotonic_from_one (frame_size sample_rate frames : ℕ)
    (emit_ok : ℕ → Bool) :
    List.Chain' (fun a b => a.1 < b.1)
        (stream_emitted_events frame_size sample_rate frames emit_ok) ∧
      (∀ e ∈ stream_emitted_events frame_size sample_rate frames emit_ok,
        1 ≤ e.1 ∧ e.2 = ((e.1 : ℚ) - 1) * frame_size / sample_rate) ∧
      (0 < frames →
        (stream_emitted_events frame_size sample_rate frames emit_ok).head? =
          some (1, 0)) := by
  refine ⟨stream_emit_loop_chain frame_size sample_rate emit_ok frames 0 false,
    ?_, ?_⟩
  · intro e he
    have := stream_emit_loop_mem frame_size sample_rate emit_ok frames 0 false e he
    exact ⟨this.1, this.2⟩
  · intro hpos
    obtain ⟨m, rfl⟩ := Nat.exists_eq_succ_of_ne_zero (Nat.pos_iff_ne_zero.mp hpos)
    simp [stream_emitted_events, stream_emit_loop]

/-- Claim C3 counterexample: a one-frame stream at the default 2048-sample
frame and 48 kHz emits exactly one event with frame_index 1 and
timestamp_secs 0; the claimed formula frame_index · frame_size /
sample_rate would give 2048/48000 instead. -/
theorem stream_events_timestamp_counterexample :
    stream_emitted_events 2048 48000 1 (fun _ => true) = [(1, 0)] ∧
      ¬((0 : ℚ) = (1 : ℚ) * 2048 / 48000) := by
  constructor
  · simp [stream_emitted_events, stream_emit_loop]
  · norm_num

/-- Witness for C3 on a concrete two-frame stream. -/
theorem stream_events_monotonic_witness :
    (stream_emitted_events 2048 48000 2 (fun _ => true)).head? = some (1, 0) :=
  (stream_events_monotonic_from_one 2048 48000 2 (fun _ => true)).2.2 (by norm_num)

/-! ### Vectorscope point subsampling (lib.rs, stream_audio_metrics) -/

/-- Iterator::step_by keeps the first element and then every (skip+1)-th
element.  The fuel argument (instantiated with the list length) bounds the
recursion; every iteration consumes at least one element, so list-length
fuel never runs out. -/
def step_by_aux {α : Type} (skip : ℕ) : ℕ → List α → List α
  | 0, _ => []
  | _ + 1, [] => []
  | fuel + 1, x :: xs => x :: step_by_aux skip fuel (xs.drop skip)

/-- Iterator::step_by(step) for step ≥ 1: elements at indices 0, step,
2·step, .... -/
def step_by {α : Type} (step : ℕ) (l : List α) : List α :=
  step_by_aux (step - 1) l.length l

/-- src/ui/src-tauri/src/lib.rs lines 910-917: subsample the Lissajous
point list with stride (len / LISSAJOUS_MAX_POINTS).max(1), where
LISSAJOUS_MAX_POINTS = 128. -/
def lissajous_subsample {α : Type} (pts : List α) : List α :=
  step_by (max (pts.length / 128) 1) pts

lemma step_by_aux_get? {α : Type} (skip : ℕ) :
    ∀ (fuel : ℕ) (l : List α) (i : ℕ), l.length ≤ fuel →
      (step_by_aux skip fuel l).get? i = l.get? (i * (skip + 1)) := by
  intro fuel
  induction fuel with
  | zero =>
    intro l i hl
    have hnil : l = [] := List.eq_nil_of_length_eq_zero (Nat.le_zero.mp hl)
    subst hnil
    simp [step_by_aux]
  | succ fuel ih =>
    intro l i hl
    cases l with
    | nil => simp [step_by_aux]
    | cons x xs =>
      cases i with
      | zero => simp [step_by_aux]
      | succ j =>
        have hlen : (xs.drop skip).length ≤ fuel := by
          simp only [List.length_drop]
          simp only [List.length_cons] at hl
          omega
        have harith : (j + 1) * (skip + 1) = skip + j * (skip + 1) + 1 := by ring
        simp only [step_by_aux, List.get?_cons_succ]
        rw [ih (xs.drop skip) j hlen, List.get?_drop, harith, List.get?_cons_succ]

lemma step_by_get? {α : Type} (step : ℕ) (hstep : 1 ≤ step) (l : List α) (i : ℕ) :
    (step_by step l).get? i = l.get? (i * step) := by
  have h := step_by_aux_get? (step - 1) l.length l i le_rfl
  have h2 : step - 1 + 1 = step := by omega
  rw [h2] at h
  exact h

/-- Claim C2 (amended): the emitted vectorscope point list takes every
stride-th point of the frame point list with stride = max(1, len / 128):
its i-th element is the (i·stride)-th input point.  Its length is at most
255, not at most 128: for every len not a multiple of 128 and above 128 the
integer stride undershoots and the list exceeds 128 points, up to 255 at
len = 255. -/
theorem lissajous_subsample_spec {α : Type} (pts : List α) :
    (∀ i : ℕ, (lissajous_subsample pts).get? i =
        pts.get? (i * max (pts.length / 128) 1)) ∧
      (lissajous_subsample pts).length ≤ 255 := by
  have hstep : 1 ≤ max (pts.length / 128) 1 := le_max_right _ _
  have hget : ∀ i : ℕ, (lissajous_subsample pts).get? i =
      pts.get? (i * max (pts.length / 128) 1) := fun i =>
    step_by_get? (max (pts.length / 128) 1) hstep pts i
  refine ⟨hget, ?_⟩
  have hbound : pts.length ≤ 255 * max (pts.length / 128) 1 := by
    have h1 : pts.length / 128 ≤ max (pts.length / 128) 1 := le_max_left _ _
    omega
  have h255 : (lissajous_subsample pts).get? 255 = none := by
    rw [hget 255]
    exact List.get?_eq_none.mpr hbound
  exact List.get?_eq_none.mp h255

set_option maxRecDepth 8000 in
/-- Claim C2 counterexample: 129 input points give stride
max(1, 129 / 128) = 1, so all 129 points are kept, exceeding the claimed
128-point cap. -/
theorem lissajous_subsample_counterexample :
    (lissajous_subsample (List.replicate 129 (0 : ℚ))).length = 129 ∧
      ¬((lissajous_subsample (List.replicate 129 (0 : ℚ))).length ≤ 128) := by
  constructor
  · decide
  · decide

/-! ### Crest factor (dsp/loudness.rs) -/

/-- dsp/loudness.rs line 8: EPSILON = 1.0e-12. -/
def EPSILON : ℚ := 1 / 10 ^ 12

/-- The peak fold of crest_factor (dsp/loudness.rs lines 172-176):
fold of max of absolute values, starting from 0. -/
def peak_abs (samples : List ℚ) : ℚ :=
  samples.foldl (fun max_v v => max max_v |v|) 0

/-- The mean-square of crest_factor (dsp/loudness.rs line 182). -/
def mean_square (samples : List ℚ) : ℚ :=
  (samples.map fun x => x * x).sum / samples.length

/-- dsp/loudness.rs, crest_factor (lines 167-190): 0 for an empty buffer,
0 when the peak is not positive, 0 when the RMS (the real square root of
the mean square) is at most EPSILON, else peak divided by RMS. -/
noncomputable def crest_factor (samples : List ℚ) : ℝ :=
  if samples.isEmpty then 0
  else if peak_abs samples ≤ 0 then 0
  else if Real.sqrt (mean_square samples) ≤ (EPSILON : ℝ) then 0
  else (peak_abs samples : ℝ) / Real.sqrt (mean_square samples)

lemma foldl_max_init_le (l : List ℚ) :
    ∀ b : ℚ, b ≤ l.foldl (fun max_v v => max max_v |v|) b := by
  induction l with
  | nil => intro b; exact le_rfl
  | cons x xs ih =>
    intro b
    exact le_trans (le_max_left b |x|) (ih (max b |x|))

lemma abs_le_foldl_max (l : List ℚ) :
    ∀ (b x : ℚ), x ∈ l → |x| ≤ l.foldl (fun max_v v => max max_v |v|) b := by
  induction l with
  | nil => intro b x hx; exact absurd hx (List.not_mem_nil x)
  | cons y ys ih =>
    intro b x hx
    rcases List.mem_cons.mp hx with rfl | hmem
    · exact le_trans (le_max_right b |x|) (foldl_max_init_le ys (max b |x|))
    · exact ih (max b |y|) x hmem

lemma peak_abs_nonneg (l : List ℚ) : 0 ≤ peak_abs l :=
  foldl_max_init_le l 0

lemma mean_square_le_peak_sq (l : List ℚ) :
    mean_square l ≤ (peak_abs l) ^ 2 := by
  rcases l with _ | ⟨x, xs⟩
  · simp [mean_square, peak_abs]
  · have hsum : ((x :: xs).map fun a => a * a).sum ≤
        ((x :: xs).map fun a => a * a).length • (peak_abs (x :: xs)) ^ 2 := by
      refine List.sum_le_card_nsmul _ _ ?_
      intro y hy
      rcases List.mem_map.mp hy with ⟨a, ha, rfl⟩
      have habs : |a| ≤ peak_abs (x :: xs) := abs_le_foldl_max (x :: xs) 0 a ha
      calc a * a = |a| * |a| := (abs_mul_abs_self a).symm
        _ ≤ peak_abs (x :: xs) * peak_abs (x :: xs) :=
          mul_le_mul habs habs (abs_nonneg a) (peak_abs_nonneg (x :: xs))
        _ = (peak_abs (x :: xs)) ^ 2 := (pow_two (peak_abs (x :: xs))).symm
    have hlen : (0 : ℚ) < ((x :: xs).length : ℚ) := by
      have h0 : 0 < (x :: xs).length := Nat.succ_pos xs.length
      exact_mod_cast h0
    rw [mean_square, div_le_iff hlen]
    calc ((x :: xs).map fun a => a * a).sum
        ≤ ((x :: xs).map fun a => a * a).length • (peak_abs (x :: xs)) ^ 2 := hsum
      _ = (((x :: xs).length : ℚ)) * (peak_abs (x :: xs)) ^ 2 := by
        rw [List.length_map, nsmul_eq_mul]
      _ = (peak_abs (x :: xs)) ^ 2 * ((x :: xs).length : ℚ) := mul_comm _ _

lemma sqrt_mean_square_le_peak (l : List ℚ) :
    Real.sqrt (mean_square l) ≤ (peak_abs l : ℝ) := by
  have hcast : ((mean_square l : ℚ) : ℝ) ≤ ((peak_abs l : ℚ) : ℝ) ^ 2 := by
    exact_mod_cast mean_square_le_peak_sq l
  calc Real.sqrt (mean_square l) ≤ Real.sqrt (((peak_abs l : ℚ) : ℝ) ^ 2) :=
      Real.sqrt_le_sqrt hcast
    _ = (peak_abs l : ℝ) := Real.sqrt_sq (by exact_mod_cast peak_abs_nonneg l)

/-- Claim C7: crest_factor is exactly peak / sqrt(mean square) when the RMS
exceeds EPSILON = 1e-12 and 0 otherwise, the empty buffer included; and the
RMS never exceeds the peak, which is why the separate source guard on the
peak adds no further case. -/
theorem crest_factor_spec (samples : List ℚ) :
    crest_factor samples =
      (if samples.isEmpty then 0
        else if (EPSILON : ℝ) < Real.sqrt (mean_square samples) then
          (peak_abs samples : ℝ) / Real.sqrt (mean_square samples)
        else 0) ∧
      Real.sqrt (mean_square samples) ≤ (peak_abs samples : ℝ) := by
  refine ⟨?_, sqrt_mean_square_le_peak samples⟩
  by_cases hemp : samples.isEmpty
  · simp [crest_factor, hemp]
  · unfold crest_factor
    rw [if_neg hemp, if_neg hemp]
    by_cases hrms : (EPSILON : ℝ) < Real.sqrt (mean_square samples)
    · have heps : (0 : ℝ) < (EPSILON : ℝ) := by norm_num [EPSILON]
      have hpkpos : (0 : ℝ) < (peak_abs samples : ℝ) :=
        lt_of_lt_of_le (lt_trans heps hrms) (sqrt_mean_square_le_peak samples)
      have hpk : ¬ peak_abs samples ≤ 0 := by
        have hq : (0 : ℚ) < peak_abs samples := by exact_mod_cast hpkpos
        exact not_le.mpr hq
      rw [if_neg hpk, if_neg (not_le.mpr hrms), if_pos hrms]
    · rw [if_neg hrms]
      push_neg at hrms
      by_cases hpk : peak_abs samples ≤ 0
      · rw [if_pos hpk]
      · rw [if_neg hpk, if_pos hrms]

/-! ### Offline loudness scanner capture cadence (dsp/scanner.rs) -/

/-- The capture catch-up loop of OfflineLoudnessScanner::scan_stem
(dsp/scanner.rs lines 308-312): while the cumulative processed sample count
has reached the next capture threshold, push one momentary and one
short-term reading and advance the threshold by capture_step_samples =
sample_rate / points_per_second.  next_capture_sample always equals
(captures so far) · rate / pps, so the f64 comparison
processed ≥ k · rate / pps is embedded as the exact integer comparison
k · rate ≤ processed · pps (for pps ∈ {1, 2} the f64 values rate / pps and
their partial sums are exactly representable, so the embedding matches the
source bit for bit at any realistic sample count).  The fuel argument
bounds the recursion; fuel processed · pps + 1 always suffices because
each push increases k and the loop stops once k · rate exceeds
processed · pps.  Returns the number of pushes. -/
def capture_loop (rate pps processed : ℕ) : ℕ → ℕ → ℕ
  | 0, _k => 0
  | fuel + 1, k =>
    if k * rate ≤ processed * pps then
      capture_loop rate pps processed fuel (k + 1) + 1
    else 0

/-- One packet iteration of scan_stem (dsp/scanner.rs lines 256-315),
restricted to the capture bookkeeping: empty decodes are skipped; otherwise
the decoded length is added to processed_samples and the capture loop runs.
The state is (processed_samples, captures so far); each capture appends one
element to the momentary series and one to the short-term series, so both
series have exactly (captures so far) elements. -/
def scan_packet_step (rate pps : ℕ) (st : ℕ × ℕ) (n : ℕ) : ℕ × ℕ :=
  if n = 0 then st
  else
    (st.1 + n,
      st.2 + capture_loop rate pps (st.1 + n) ((st.1 + n) * pps + 1) st.2)

/-- The length of the momentary (and short-term) series produced by one
scan_stem worker over the given list of per-packet decoded mono sample
counts. -/
def scan_series_length (rate pps : ℕ) (packets : List ℕ) : ℕ :=
  (packets.foldl (scan_packet_step rate pps) (0, 0)).2

lemma capture_loop_eq (rate pps processed : ℕ) (hr : 0 < rate) :
    ∀ (fuel k : ℕ), processed * pps / rate + 1 - k ≤ fuel →
      capture_loop rate pps processed fuel k = processed * pps / rate + 1 - k := by
  intro fuel
  induction fuel with
  | zero =>
    intro k hk
    simp only [capture_loop]
    omega
  | succ fuel ih =>
    intro k hk
    by_cases hcond : k * rate ≤ processed * pps
    · have hkle : k ≤ processed * pps / rate :=
        (Nat.le_div_iff_mul_le hr).mpr hcond
      simp only [capture_loop, if_pos hcond]
      rw [ih (k + 1) (by omega)]
      omega
    · simp only [capture_loop, if_neg hcond]
      have hkgt : processed * pps / rate < k := by
        by_contra hcon
        push_neg at hcon
        exact hcond ((Nat.le_div_iff_mul_le hr).mp hcon)
      omega

lemma scan_fold_spec (rate pps : ℕ) (hr : 0 < rate) :
    ∀ (packets : List ℕ) (s k : ℕ),
      k = (if s = 0 then 0 else s * pps / rate + 1) →
      packets.foldl (scan_packet_step rate pps) (s, k) =
        (s + packets.sum,
          if s + packets.sum = 0 then 0
          else (s + packets.sum) * pps / rate + 1) := by
  intro packets
  induction packets with
  | nil =>
    intro s k hk
    simp [hk]
  | cons n rest ih =>
    intro s k hk
    simp only [List.foldl_cons, List.sum_cons]
    by_cases hn : n = 0
    · subst hn
      have hstep : scan_packet_step rate pps (s, k) 0 = (s, k) := by
        simp [scan_packet_step]
      rw [hstep, ih s k hk, Nat.zero_add]
    · have hfuel : (s + n) * pps / rate + 1 - k ≤ (s + n) * pps + 1 := by
        have hd := Nat.div_le_self ((s + n) * pps) rate
        omega
      have hkle : k ≤ (s + n) * pps / rate + 1 := by
        rcases Nat.eq_zero_or_pos s with hs | hs
        · subst hs
          simp only [if_pos rfl] at hk
          subst hk
          exact Nat.zero_le _
        · rw [if_neg (Nat.pos_iff_ne_zero.mp hs)] at hk
          have hmono : s * pps / rate ≤ (s + n) * pps / rate :=
            Nat.div_le_div_right (Nat.mul_le_mul_right pps (Nat.le_add_right s n))
          omega
      have hknew : k + capture_loop rate pps (s + n) ((s + n) * pps + 1) k =
          (s + n) * pps / rate + 1 := by
        rw [capture_loop_eq rate pps (s + n) hr ((s + n) * pps + 1) k hfuel]
        omega
      have hstep : scan_packet_step rate pps (s, k) n =
          (s + n, (s + n) * pps / rate + 1) := by
        simp only [scan_packet_step, if_neg hn]
        rw [hknew]
      rw [hstep, ih (s + n) ((s + n) * pps / rate + 1)
        (by rw [if_neg (by omega)])]
      have hsum : s + n + rest.sum = s + (n + rest.sum) := by omega
      rw [hsum]

/-- Claim C8 (amended): an offline scan worker that decodes S > 0 total
samples at source rate r with points_per_second p captures one momentary
and one short-term reading at each crossing of an integer multiple of
r / p by the cumulative decoded sample count (the multiples start at 0), so
both series have length floor(S · p / r) + 1.  A worker that decodes no
samples captures nothing and returns empty series, not length 1.  A 10 s
file at p = 2 gives floor(10·r·2/r) + 1 = 21 = 20 + 1 points. -/
theorem scan_series_length_eq (rate pps : ℕ) (packets : List ℕ)
    (hr : 0 < rate) (hp1 : 1 ≤ pps) (hp2 : pps ≤ 2)
    (hS : 0 < packets.sum) :
    scan_series_length rate pps packets = packets.sum * pps / rate + 1 := by
  have h := scan_fold_spec rate pps hr packets 0 0 (by simp)
  unfold scan_series_length
  rw [h]
  simp only [Nat.zero_add]
  rw [if_neg (by omega)]

/-- Claim C8 counterexample: a worker that decodes no samples (no decodable
packets) returns empty series, while the claimed formula
floor(S · p / r) + 1 gives 1 at S = 0. -/
theorem scan_series_length_counterexample :
    scan_series_length 48000 2 [] = 0 ∧ (0 * 2) / 48000 + 1 = 1 ∧
      ¬(scan_series_length 48000 2 [] = (0 * 2) / 48000 + 1) := by
  refine ⟨rfl, rfl, by decide⟩

/-- Witness for C8: a 10 second file at 10 samples per second scanned with
points_per_second 2 yields 100 · 2 / 10 + 1 = 21 capture points. -/
theorem scan_series_length_witness :
    scan_series_length 10 2 [100] = [100].sum * 2 / 10 + 1 :=
  scan_series_length_eq 10 2 [100] (by norm_num) (by norm_num) (by norm_num)
    (by decide)

/-! ### Decoder seek (dsp/mod.rs, StemStreamDecoder::seek and
MikupAudioDecoder::seek) -/

/-- The per-stem streaming state touched by StemStreamDecoder::seek: the
pending-sample FIFO, the resampler residual buffer and fractional position,
the eof flag, and the container read position (in seconds). -/
structure StemDecState where
  pending : List ℚ
  resampler_source : List ℚ
  resampler_position : ℚ
  eof : Bool
  container_pos : ℚ
deriving DecidableEq

/-- The local-state reset prefix of StemStreamDecoder::seek (dsp/mod.rs
lines 530-533): clear the pending queue and the resampler residual, reset
the resampler position, clear eof.  This runs before the container seek is
attempted. -/
def StemDecState.clear_for_seek (s : StemDecState) : StemDecState :=
  { s with
    pending := [],
    resampler_source := [],
    resampler_position := 0,
    eof := false }

/-- dsp/mod.rs, StemStreamDecoder::seek (lines 529-550): reset the local
state, then seek the container.  On success the container stands at the
requested time (and the codec is reset); on failure the method returns the
Seek error with the local state already cleared and the container where it
was.  Whether the container seek succeeds is I/O-dependent and abstracted
by the ok flag. -/
def stem_seek (ok : Bool) (seconds : ℚ) (s : StemDecState) : Bool × StemDecState :=
  let cleared := s.clear_for_seek
  if ok then (true, { cleared with container_pos := seconds })
  else (false, cleared)

inductive SeekOutcome where
  | ok : SeekOutcome
  | invalid_config : SeekOutcome
  | seek_failed : Fin 5 → SeekOutcome
deriving DecidableEq

/-- The sequential per-stem cascade of MikupAudioDecoder::seek (dsp/mod.rs
lines 785-789) over a list of stem indices (the fixed source order dx,
music, foley, sfx, ambience is indices 0..4): each ? operator propagates
the first failure immediately, so stems after the failing one are never
touched. -/
def seek_stems (seconds : ℚ) (oks : Fin 5 → Bool) :
    List (Fin 5) → (Fin 5 → StemDecState) →
      SeekOutcome × (Fin 5 → StemDecState)
  | [], d => (SeekOutcome.ok, d)
  | i :: rest, d =>
    let r := stem_seek (oks i) seconds (d i)
    if r.1 then seek_stems seconds oks rest (Function.update d i r.2)
    else (SeekOutcome.seek_failed i, Function.update d i r.2)

/-- The fixed stem order of MikupAudioDecoder::seek: dx, music, foley,
sfx, ambience. -/
def stem_seek_order : List (Fin 5) := [0, 1, 2, 3, 4]

/-- dsp/mod.rs, MikupAudioDecoder::seek (lines 779-791): reject a negative
seek time before touching any stem (the f32 finiteness guard has no ℚ
counterpart since every rational is finite), then seek the five stems in
order. -/
def mikup_seek (seconds : ℚ) (oks : Fin 5 → Bool)
    (d : Fin 5 → StemDecState) : SeekOutcome × (Fin 5 → StemDecState) :=
  if seconds < 0 then (SeekOutcome.invalid_config, d)
  else seek_stems seconds oks stem_seek_order d

lemma seek_stems_first_failure (seconds : ℚ) (oks : Fin 5 → Bool) (k : Fin 5)
    (hk : oks k = false) :
    ∀ (P : List (Fin 5)) (S : List (Fin 5)) (d : Fin 5 → StemDecState),
      (∀ i ∈ P, oks i = true) → k ∉ P → P.Nodup →
      (seek_stems seconds oks (P ++ k :: S) d).1 = SeekOutcome.seek_failed k ∧
        ∀ i : Fin 5, (seek_stems seconds oks (P ++ k :: S) d).2 i =
          if i ∈ P then
            { (d i).clear_for_seek with container_pos := seconds }
          else if i = k then (d i).clear_for_seek
          else d i := by
  intro P
  induction P with
  | nil =>
    intro S d _hall _hkP _hnd
    constructor
    · simp [seek_stems, stem_seek, hk]
    · intro i
      by_cases hik : i = k
      · subst hik
        simp [seek_stems, stem_seek, hk, Function.update_same]
      · simp [seek_stems, stem_seek, hk, Function.update_noteq hik, hik]
  | cons a P ih =>
    intro S d hall hkP hnd
    have hoka : oks a = true := hall a (List.mem_cons_self a P)
    have hkP2 : k ∉ P := fun h => hkP (List.mem_cons_of_mem a h)
    have hka : ¬ (a = k) := fun h => hkP (by rw [h]; exact List.mem_cons_self k P)
    have haP : a ∉ P := (List.nodup_cons.mp hnd).1
    have hndP : P.Nodup := (List.nodup_cons.mp hnd).2
    have hallP : ∀ i ∈ P, oks i = true := fun i hi =>
      hall i (List.mem_cons_of_mem a hi)
    have hstep : seek_stems seconds oks ((a :: P) ++ k :: S) d =
        seek_stems seconds oks (P ++ k :: S)
          (Function.update d a
            { (d a).clear_for_seek with container_pos := seconds }) := by
      simp [seek_stems, stem_seek, hoka]
    rw [hstep]
    obtain ⟨h1, h2⟩ := ih S
      (Function.update d a { (d a).clear_for_seek with container_pos := seconds })
      hallP hkP2 hndP
    refine ⟨h1, ?_⟩
    intro i
    rw [h2 i]
    by_cases hia : i = a
    · subst hia
      rw [if_neg haP, if_neg hka, Function.update_same,
        if_pos (List.mem_cons_self i P)]
    · have hupd : Function.update d a
          { (d a).clear_for_seek with container_pos := seconds } i = d i :=
        Function.update_noteq hia _ d
      rw [hupd]
      by_cases hiP : i ∈ P
      · rw [if_pos hiP, if_pos (List.mem_cons_of_mem a hiP)]
      · have hmem2 : ¬ (i ∈ a :: P) := by
          intro hc
          rcases List.mem_cons.mp hc with h | h
          · exact hia h
          · exact hiP h
        rw [if_neg hiP, if_neg hmem2]

/-- Claim C10: MikupAudioDecoder::seek is not atomic on failure.  For a
nonnegative seek time, if the container seek of stem k (in the fixed order
dx, music, foley, sfx, ambience = indices 0..4) fails while every earlier
stem succeeds, seek returns the stem-k error; at that point every earlier
stem has had its pending queue cleared, its resampler reset and its
container sought to the new time, the failing stem has been cleared but
not sought, and every later stem keeps its previous state. -/
theorem mikup_seek_partial_on_failure (seconds : ℚ) (oks : Fin 5 → Bool)
    (d : Fin 5 → StemDecState) (k : Fin 5) (hsec : 0 ≤ seconds)
    (hk : oks k = false) (hprev : ∀ i : Fin 5, i < k → oks i = true) :
    (mikup_seek seconds oks d).1 = SeekOutcome.seek_failed k ∧
      ∀ i : Fin 5, (mikup_seek seconds oks d).2 i =
        if i < k then { (d i).clear_for_seek with container_pos := seconds }
        else if i = k then (d i).clear_for_seek
        else d i := by
  have hnneg : ¬ (seconds < 0) := not_lt.mpr hsec
  have hms : mikup_seek seconds oks d = seek_stems seconds oks stem_seek_order d := by
    rw [mikup_seek, if_neg hnneg]
  fin_cases k
  · obtain ⟨h1, h2⟩ := seek_stems_first_failure seconds oks 0 hk []
      [1, 2, 3, 4] d (by intro i hi; exact absurd hi (List.not_mem_nil i))
      (List.not_mem_nil _) List.nodup_nil
    rw [hms]
    refine ⟨h1, ?_⟩
    intro i
    rw [show stem_seek_order = ([] : List (Fin 5)) ++ (0 : Fin 5) :: [1, 2, 3, 4]
      from rfl, h2 i]
    fin_cases i <;> rfl
  · obtain ⟨h1, h2⟩ := seek_stems_first_failure seconds oks 1 hk [0]
      [2, 3, 4] d
      (by
        intro i hi
        simp only [List.mem_singleton] at hi
        subst hi
        exact hprev _ (by decide))
      (by decide) (by decide)
    rw [hms]
    refine ⟨h1, ?_⟩
    intro i
    rw [show stem_seek_order = ([0] : List (Fin 5)) ++ (1 : Fin 5) :: [2, 3, 4]
      from rfl, h2 i]
    fin_cases i <;> rfl
  · obtain ⟨h1, h2⟩ := seek_stems_first_failure seconds oks 2 hk [0, 1]
      [3, 4] d
      (by
        intro i hi
        simp only [List.mem_cons, List.mem_singleton, List.not_mem_nil,
          or_false] at hi
        rcases hi with rfl | rfl
        · exact hprev _ (by decide)
        · exact hprev _ (by decide))
      (by decide) (by decide)
    rw [hms]
    refine ⟨h1, ?_⟩
    intro i
    rw [show stem_seek_order = ([0, 1] : List (Fin 5)) ++ (2 : Fin 5) :: [3, 4]
      from rfl, h2 i]
    fin_cases i <;> rfl
  · obtain ⟨h1, h2⟩ := seek_stems_first_failure seconds oks 3 hk [0, 1, 2]
      [4] d
      (by
        intro i hi
        simp only [List.mem_cons, List.mem_singleton, List.not_mem_nil,
          or_false] at hi
        rcases hi with rfl | rfl | rfl
        · exact hprev _ (by decide)
        · exact hprev _ (by decide)
        · exact hprev _ (by decide))
      (by decide) (by decide)
    rw [hms]
    refine ⟨h1, ?_⟩
    intro i
    rw [show stem_seek_order = ([0, 1, 2] : List (Fin 5)) ++ (3 : Fin 5) :: [4]
      from rfl, h2 i]
    fin_cases i <;> rfl
  · obtain ⟨h1, h2⟩ := seek_stems_first_failure seconds oks 4 hk [0, 1, 2, 3]
      [] d
      (by
        intro i hi
        simp only [List.mem_cons, List.mem_singleton, List.not_mem_nil,
          or_false] at hi
        rcases hi with rfl | rfl | rfl | rfl
        · exact hprev _ (by decide)
        · exact hprev _ (by decide)
        · exact hprev _ (by decide)
        · exact hprev _ (by decide))
      (by decide) (by decide)
    rw [hms]
    refine ⟨h1, ?_⟩
    intro i
    rw [show stem_seek_order = ([0, 1, 2, 3] : List (Fin 5)) ++ (4 : Fin 5) :: []
      from rfl, h2 i]
    fin_cases i <;> rfl

/-- A concrete oks pattern: container seeks succeed for stems 0 and 1 and
fail from stem 2 on. -/
def seek_witness_oks : Fin 5 → Bool := fun i => decide (i < 2)

/-- A concrete nontrivial stem decoder state. -/
def seek_witness_state : StemDecState :=
  { pending := [1],
    resampler_source := [2],
    resampler_position := 3,
    eof := true,
    container_pos := 4 }

def seek_witness_decoders : Fin 5 → StemDecState := fun _ => seek_witness_state

/-- Witness for C10 at a concrete failing seek of stem 2. -/
theorem mikup_seek_partial_witness :
    (mikup_seek 1 seek_witness_oks seek_witness_decoders).1 =
        SeekOutcome.seek_failed 2 ∧
      (mikup_seek 1 seek_witness_oks seek_witness_decoders).2 0 =
        (if (0 : Fin 5) < 2 then
          { (seek_witness_decoders 0).clear_for_seek with container_pos := 1 }
        else if (0 : Fin 5) = 2 then (seek_witness_decoders 0).clear_for_seek
        else seek_witness_decoders 0) :=
  ⟨(mikup_seek_partial_on_failure 1 seek_witness_oks seek_witness_decoders 2
      (by norm_num) (by decide) (by decide)).1,
   (mikup_seek_partial_on_failure 1 seek_witness_oks seek_witness_decoders 2
      (by norm_num) (by decide) (by decide)).2 0⟩

end Mikup
